import Mathlib

/-!
# Verification of the bank-customer-profiling pipeline

Shallow embedding of the scoring pipeline (`src/score_final.py`,
`src/markov_transitions.py`, `src/cluster_profiles.py`,
`src/build_features.py`) together with theorems settling the frozen
claims about it.  Numeric columns are modelled as `List ℚ` (pandas float
arithmetic is modelled exactly over the rationals); fallible stages
return `Except`/`Option`.
-/

namespace BankProfiling

/-! ## `score_final.minmax`

`minmax(s)`: min-max scaling over the series, with `np.isclose(mx - mn, 0)`
(absolute tolerance `1e-8`, relative part vanishes against `0`) guarding the
constant case, which returns `np.zeros(len(s))`. -/

def minmax : List ℚ → List ℚ
  | [] => []
  | h :: t =>
      let mn := t.foldl min h
      let mx := t.foldl max h
      if |mx - mn| ≤ 1e-8 then (h :: t).map (fun _ => 0)
      else (h :: t).map (fun v => (v - mn) / (mx - mn))

/-! ## `score_final` composite score

`round6` models pandas' `.round(6)` (round half to even on the value scaled
by `10^6`); `priorityTier` models the `pd.cut` with bins
`[-0.01, 0.33, 0.66, 1.01]` and labels Low/Medium/High (an out-of-range
value gets no label, as `pd.cut` yields NaN there). -/

def round6 (q : ℚ) : ℚ :=
  let s := q * 1000000
  let n : ℤ := ⌊s⌋
  let f : ℚ := s - (n : ℚ)
  let r : ℤ :=
    if f < 1 / 2 then n
    else if 1 / 2 < f then n + 1
    else if n % 2 = 0 then n else n + 1
  (r : ℚ) / 1000000

def priorityTier (x : ℚ) : Option String :=
  if -0.01 < x ∧ x ≤ 0.33 then some "Low"
  else if 0.33 < x ∧ x ≤ 0.66 then some "Medium"
  else if 0.66 < x ∧ x ≤ 1.01 then some "High"
  else none

/-- The score construction of `score_final.main` lines 173-187:
normalized propensity, urgency from the 3-month adoption probability and
the (inverted) expected time, normalized transition risk, fused with
weights 0.50/0.30/0.20 and rounded to six decimals. -/
def computeFinalScores (props p3s times risks : List ℚ) : List ℚ :=
  let s_prop := minmax props
  let s_p3 := minmax p3s
  let s_time := (minmax times).map (fun v => 1 - v)
  let s_urgency := List.zipWith (fun a b => 0.6 * a + 0.4 * b) s_p3 s_time
  let s_risk := minmax risks
  let pre := List.zipWith (fun p u => 0.5 * p + 0.3 * u) s_prop s_urgency
  let fin := List.zipWith (fun pu r => pu + 0.2 * r) pre s_risk
  fin.map round6

/-! ## `build_features` / `markov_transitions` schemas (claim C5)

`feature_table_columns` is the column list that `build_features.main`
writes to `data/processed/customer_features.csv` (the `reset_index` puts
`customer_id` first, then the named aggregates).  `markov_train_cols` is
the `train_cols` list of `markov_transitions.load_or_train_kmeans`.
`select_columns` models `df[cols]`, which raises a `KeyError` (here:
`none`) when a requested column is absent. -/

def feature_table_columns : List String :=
  ["customer_id", "age", "income", "mean_balance", "std_balance",
   "mean_card_spend", "mean_utilization", "mean_pix", "late_payment_rate",
   "adopted_ever", "time_to_investment"]

def markov_train_cols : List String :=
  ["age", "income", "m12_mean_balance", "m12_std_balance",
   "m12_mean_card_spend", "m12_mean_utilization", "m12_mean_pix",
   "m12_late_payment_rate"]

def select_columns (avail want : List String) : Option (List String) :=
  if want.all (fun c => avail.contains c) then some want else none

/-- The column selection `df[train_cols]` performed by the fresh-fit path
of `load_or_train_kmeans` on the table written by `build_features`. -/
def fresh_fit_columns : Option (List String) :=
  select_columns feature_table_columns markov_train_cols

/-! ## `markov_transitions.compute_markov` (claims C2, C3, C4)

`compute_markov` sorts the monthly table by (customer, month), pairs each
row with its successor inside the customer group (`groupby(...).shift(-1)`),
keeps a pair only when `month_next == month + 1`, tallies the pairs into a
contingency table reindexed over the contiguous state range
`0..max(df.cluster.max(), trans.cluster_next.max())` with fill value 0,
and row-normalizes, mapping zero-sum rows to all zeros. -/

def adjPairs {α : Type} : List α → List (α × α)
  | [] => []
  | [_] => []
  | a :: b :: rest => (a, b) :: adjPairs (b :: rest)

/-- The (month, cluster) pairs kept by the `month_next == month + 1`
filter, over the successor pairing of the sorted rows. -/
def validPairs (rows : List (Nat × Nat)) : List ((Nat × Nat) × (Nat × Nat)) :=
  (adjPairs rows).filter (fun p => p.2.1 == p.1.1 + 1)

instance : IsTotal (Nat × Nat) (fun a b => a.1 ≤ b.1) :=
  ⟨fun a b => Nat.le_total a.1 b.1⟩

instance : IsTrans (Nat × Nat) (fun a b => a.1 ≤ b.1) :=
  ⟨fun _ _ _ h h' => Nat.le_trans h h'⟩

def sort_by_month (l : List (Nat × Nat)) : List (Nat × Nat) :=
  l.insertionSort (fun a b => a.1 ≤ b.1)

/-- Rows of one customer, as (month, cluster), in input order. -/
def cust_months (rows : List (Nat × Nat × Nat)) (c : Nat) : List (Nat × Nat) :=
  (rows.filter (fun r => r.1 == c)).map (fun r => (r.2.1, r.2.2))

def customer_ids (rows : List (Nat × Nat × Nat)) : List Nat :=
  (rows.map (fun r => r.1)).dedup

/-- All (state, next state) transitions over all customers. -/
def transitions_of (rows : List (Nat × Nat × Nat)) : List (Nat × Nat) :=
  (customer_ids rows).flatMap fun c =>
    (validPairs (sort_by_month (cust_months rows c))).map fun p => (p.1.2, p.2.2)

/-- `max(df.cluster.max(), trans.cluster_next.max())` of `compute_markov`. -/
def max_state (rows : List (Nat × Nat × Nat)) : Nat :=
  max ((rows.map (fun r => r.2.2)).foldr max 0)
    (((transitions_of rows).map (fun t => t.2)).foldr max 0)

/-- The transition count matrix, reindexed over states `0..max_state`. -/
def markov_counts (rows : List (Nat × Nat × Nat)) : List (List Nat) :=
  (List.range (max_state rows + 1)).map fun i =>
    (List.range (max_state rows + 1)).map fun j =>
      (transitions_of rows).count (i, j)

/-- Row normalization `counts.div(rowsum.replace(0, nan)).fillna(0)`. -/
def normalizeRow (r : List Nat) : List ℚ :=
  if r.sum = 0 then r.map (fun _ => 0)
  else r.map (fun x : Nat => (x : ℚ) / (r.sum : ℚ))

def markov_probs (rows : List (Nat × Nat × Nat)) : List (List ℚ) :=
  (markov_counts rows).map normalizeRow

/-- One customer whose 21-month cluster path produces the transition
counts of the spec's scenario. -/
def exMarkovRows : List (Nat × Nat × Nat) :=
  [(1, 1, 0), (1, 2, 0), (1, 3, 0), (1, 4, 0), (1, 5, 0), (1, 6, 0),
   (1, 7, 0), (1, 8, 0), (1, 9, 0), (1, 10, 1), (1, 11, 1), (1, 12, 1),
   (1, 13, 1), (1, 14, 1), (1, 15, 1), (1, 16, 1), (1, 17, 1), (1, 18, 1),
   (1, 19, 1), (1, 20, 0), (1, 21, 1)]

/-! ## `cluster_profiles` heuristic labeling (claim C8)

`cluster_profiles.main` ranks the per-cluster summary on four axes with
`rank(method="dense", ascending=False)` and assigns the first matching
label of the cascade; the utilization rank (`high_credit`) is computed by
the source but never used by the cascade. -/

structure ClusterSummaryRow where
  cluster : Nat
  income : ℚ
  mean_pix : ℚ
  mean_utilization : ℚ
  late_payment_rate : ℚ

/-- Pandas dense descending rank of `v` within `vals`: 1 plus the number
of distinct values strictly greater than `v`. -/
def dense_rank_desc (vals : List ℚ) (v : ℚ) : Nat :=
  1 + ((vals.filter (fun x => decide (v < x))).dedup).length

/-- The first-match label cascade of `cluster_profiles.main`. -/
def profile_name (summary : List ClusterSummaryRow)
    (row : ClusterSummaryRow) : String :=
  let high_risk := dense_rank_desc
    (summary.map (fun r => r.late_payment_rate)) row.late_payment_rate = 1
  let high_income := dense_rank_desc
    (summary.map (fun r => r.income)) row.income = 1
  let high_digital := dense_rank_desc
    (summary.map (fun r => r.mean_pix)) row.mean_pix = 1
  if high_risk ∧ high_digital then "Digital Crédito Intensivo"
  else if high_income then "Alta Renda Estável"
  else if high_digital then "Digital Estável"
  else "Conservador Tradicional"

/-- Two summary rows: the first tops both the risk and the digital axis,
the second independently tops income. -/
def exCardA : ClusterSummaryRow := ⟨0, 100, 10, 3, 5⟩

def exCardB : ClusterSummaryRow := ⟨1, 999, 2, 1, 1⟩

/-! ## `score_final.main` (claims C6, C7)

The transition matrix read back from CSV has string row/column labels
(`M.index.map(str)`, `M.columns.map(str)`).  `find_risk_cluster_id`
returns `none` when the cluster-profile-cards file is absent, the
late-payment column is missing, or the table has no rows.  The base
table optionally carries the `cluster_name` column (`names`, aligned
with `rows`). -/

structure MarkovCSV where
  cols : List String
  rows : List (String × List ℚ)

def MarkovCSV.hasRow (M : MarkovCSV) (r : String) : Bool :=
  M.rows.any (fun p => p.1 == r)

def MarkovCSV.hasCol (M : MarkovCSV) (c : String) : Bool :=
  M.cols.contains c

def MarkovCSV.loc (M : MarkovCSV) (r c : String) : ℚ :=
  match M.rows.find? (fun p => p.1 == r) with
  | some p =>
      match (M.cols.zip p.2).find? (fun q => q.1 == c) with
      | some q => q.2
      | none => 0
  | none => 0

structure BaseTable where
  rows : List (Nat × Nat)
  names : Option (List String)

/-- `find_risk_cluster_id`: the cluster of the first row attaining the
maximal late-payment rate (stable descending sort, `iloc[0]`). -/
def find_risk_cluster_id (cards : Option (List (Nat × ℚ))) : Option Nat :=
  match cards with
  | none => none
  | some [] => none
  | some (h :: t) =>
      some (t.foldl (fun best x => if best.2 < x.2 then x else best) h).1

/-- The inner `transition_to_risk` of `score_final.main`: numeric path
only; the two NaN outcomes (named matrix, unresolvable) are both `none`. -/
def transition_to_risk (M : MarkovCSV) (rid : Option Nat)
    (cluster : Nat) : Option ℚ :=
  match rid with
  | some r =>
      if M.hasRow (toString cluster) && M.hasCol (toString r) then
        some (M.loc (toString cluster) (toString r))
      else none
  | none => none

/-- The `p_next_risk` column: numeric lookups, then (only when every
numeric lookup came back NaN and the matrix has a "Low" column and the
base table has `cluster_name`) the name-based pass, then `fillna(0)`. -/
def p_next_risk_col (base : BaseTable) (M : MarkovCSV)
    (rid : Option Nat) : List ℚ :=
  let col := base.rows.map (fun r => transition_to_risk M rid r.2)
  let col2 :=
    if col.all (fun o => o.isNone) && M.hasCol "Low" then
      match base.names with
      | some ns =>
          ns.map (fun s =>
            if M.hasRow s && M.hasCol "Low" then some (M.loc s "Low") else none)
      | none => col
    else col
  col2.map (fun o => o.getD 0)

def lookupQ (tbl : List (Nat × ℚ)) (cid : Nat) : Option ℚ :=
  (tbl.find? (fun p => p.1 == cid)).map (fun p => p.2)

/-- Pandas median (mean of the two middle order statistics when the
length is even; the all-missing edge is modelled as 0). -/
def medianQ (l : List ℚ) : ℚ :=
  let s := l.insertionSort (fun a b => a ≤ b)
  if s = [] then 0
  else if l.length % 2 = 1 then s.getD (l.length / 2) 0
  else (s.getD (l.length / 2 - 1) 0 + s.getD (l.length / 2) 0) / 2

/-- The computation of `score_final.main` after all input files are
present: risk column, left merges with fill values, score fusion,
tiering, and the final descending sort by score. -/
def fusion_output (base : BaseTable) (prop sp st : List (Nat × ℚ))
    (M : MarkovCSV) (cards : Option (List (Nat × ℚ))) :
    List (Nat × ℚ × Option String) :=
  let rid := find_risk_cluster_id cards
  let pRisk := p_next_risk_col base M rid
  let props := base.rows.map (fun r => (lookupQ prop r.1).getD 0)
  let p3s := base.rows.map (fun r => (lookupQ sp r.1).getD 0)
  let etOpt := base.rows.map (fun r => lookupQ st r.1)
  let med := medianQ (etOpt.filterMap id)
  let ets := etOpt.map (fun o => o.getD med)
  let finals := computeFinalScores props p3s ets pRisk
  let outRows := (base.rows.zip finals).map
    (fun pr => (pr.1.1, pr.2, priorityTier pr.2))
  outRows.insertionSort (fun a b => b.2.1 ≤ a.2.1)

structure FusionInputs where
  base_named : Option BaseTable
  base_unnamed : Option BaseTable
  propensity_scores : Option (List (Nat × ℚ))
  survival_prob : Option (List (Nat × ℚ))
  survival_time : Option (List (Nat × ℚ))
  markov_matrix : Option MarkovCSV
  cards : Option (List (Nat × ℚ))

def isOkB {ε α : Type} : Except ε α → Bool
  | .ok _ => true
  | .error _ => false

/-- `score_final.main`: the named base table is preferred, the unnamed
one is the fallback; the propensity, survival, and transition-matrix
files are hard requirements checked in source order; the profile-cards
file is only consulted through `find_risk_cluster_id`. -/
def score_final_main (fi : FusionInputs) :
    Except String (List (Nat × ℚ × Option String)) :=
  match (match fi.base_named with
         | some b => some b
         | none => fi.base_unnamed) with
  | none => .error "Missing clustered features. Run build_features and cluster_profiles first."
  | some base =>
      match fi.propensity_scores with
      | none => .error "Missing propensity_scores.csv (run propensity_model)."
      | some prop =>
          match fi.survival_prob, fi.survival_time with
          | some sp, some st =>
              match fi.markov_matrix with
              | none => .error "Missing markov_transition_matrix.csv (run markov_transitions)."
              | some M => .ok (fusion_output base prop sp st M fi.cards)
          | _, _ => .error "Missing survival outputs. Run survival_model."

/-- The per-customer resolution chain that the spec describes for the
transition-risk lookup: numeric id first, then the name-based path, else
the neutral value 0.  Stated from the spec's words, to be compared with
`p_next_risk_col`, the source behaviour. -/
def spec_transition_risk (M : MarkovCSV) (rid : Option Nat) (cluster : Nat)
    (cname : Option String) : ℚ :=
  match transition_to_risk M rid cluster with
  | some v => v
  | none =>
      match cname with
      | some s => if M.hasRow s && M.hasCol "Low" then M.loc s "Low" else 0
      | none => 0

def fiMissingMarkov : FusionInputs :=
  { base_named := some ⟨[(1, 0)], none⟩, base_unnamed := none,
    propensity_scores := some [(1, 1)], survival_prob := some [(1, 1)],
    survival_time := some [(1, 2)], markov_matrix := none, cards := none }

def fiNoCards : FusionInputs :=
  { base_named := some ⟨[(1, 0)], none⟩, base_unnamed := none,
    propensity_scores := some [(1, 1)], survival_prob := some [(1, 1)],
    survival_time := some [(1, 2)],
    markov_matrix := some ⟨["0"], [("0", [1])]⟩, cards := none }

def base7a : BaseTable := ⟨[(1, 0)], none⟩

def M7a : MarkovCSV := ⟨["0"], [("0", [5])]⟩

/-- Two customers: cluster 0 resolves on the numeric path, cluster 5
does not, while its cluster name "NameX" would resolve on the name path. -/
def base7 : BaseTable := ⟨[(1, 0), (2, 5)], some ["A", "NameX"]⟩

def M7 : MarkovCSV := ⟨["1", "Low"], [("0", [7, 1]), ("NameX", [2, 9])]⟩

/-! ## Generic list helpers (used by the embeddings and the proofs) -/

/-- `getD` through `map`, at a valid index. -/
theorem getD_map_of_lt {α β : Type} (f : α → β) :
    ∀ (l : List α) (i : Nat), i < l.length →
      ∀ (d : β) (d₀ : α), (l.map f).getD i d = f (l.getD i d₀)
  | [], i, h, _, _ => absurd h (by simp)
  | a :: l, 0, _, _, _ => rfl
  | a :: l, i + 1, h, d, d₀ =>
      getD_map_of_lt f l i (by simpa using h) d d₀

/-- `getD` through `zipWith`, at an index valid on both sides. -/
theorem getD_zipWith_of_lt {α β γ : Type} (f : α → β → γ) :
    ∀ (l₁ : List α) (l₂ : List β) (i : Nat), i < l₁.length → i < l₂.length →
      ∀ (d : γ) (d₁ : α) (d₂ : β),
        (List.zipWith f l₁ l₂).getD i d = f (l₁.getD i d₁) (l₂.getD i d₂)
  | [], _, i, h, _, _, _, _ => absurd h (by simp)
  | _ :: _, [], i, _, h, _, _, _ => absurd h (by simp)
  | a :: l₁, b :: l₂, 0, _, _, _, _, _ => rfl
  | a :: l₁, b :: l₂, i + 1, h₁, h₂, d, d₁, d₂ =>
      getD_zipWith_of_lt f l₁ l₂ i (by simpa using h₁) (by simpa using h₂) d d₁ d₂

/-- The running minimum `foldl min` is below the accumulator. -/
theorem foldl_min_le_init (t : List ℚ) : ∀ a : ℚ, t.foldl min a ≤ a := by
  induction t with
  | nil => intro a; exact le_refl a
  | cons b t ih =>
      intro a
      exact le_trans (ih (min a b)) (min_le_left a b)

/-- The running minimum `foldl min` is below every member. -/
theorem foldl_min_le_mem {x : ℚ} (t : List ℚ) (hx : x ∈ t) :
    ∀ a : ℚ, t.foldl min a ≤ x := by
  induction t with
  | nil => cases hx
  | cons b t ih =>
      intro a
      rcases List.mem_cons.mp hx with h | h
      · subst h
        exact le_trans (foldl_min_le_init t (min a x)) (min_le_right a x)
      · exact ih h (min a b)

/-- The running maximum `foldl max` is above the accumulator. -/
theorem le_foldl_max_init (t : List ℚ) : ∀ a : ℚ, a ≤ t.foldl max a := by
  induction t with
  | nil => intro a; exact le_refl a
  | cons b t ih =>
      intro a
      exact le_trans (le_max_left a b) (ih (max a b))

/-- The running maximum `foldl max` is above every member. -/
theorem le_foldl_max_mem {x : ℚ} (t : List ℚ) (hx : x ∈ t) :
    ∀ a : ℚ, x ≤ t.foldl max a := by
  induction t with
  | nil => cases hx
  | cons b t ih =>
      intro a
      rcases List.mem_cons.mp hx with h | h
      · subst h
        exact le_trans (le_max_right a x) (le_foldl_max_init t (max a x))
      · exact ih h (max a b)

theorem minmax_length (l : List ℚ) : (minmax l).length = l.length := by
  cases l with
  | nil => rfl
  | cons h t =>
      simp only [minmax]
      split <;> simp

/-- Evaluate `round6` when the fractional part is below one half. -/
theorem round6_eval_down (q : ℚ) (n : ℤ) (h1 : (n : ℚ) ≤ q * 1000000)
    (h2 : q * 1000000 < (n : ℚ) + 1) (hf : q * 1000000 - (n : ℚ) < 1 / 2) :
    round6 q = (n : ℚ) / 1000000 := by
  have hfl : ⌊q * 1000000⌋ = n := Int.floor_eq_iff.mpr ⟨h1, by exact h2⟩
  simp only [round6, hfl, if_pos hf]

/-- Evaluate `round6` when the fractional part is above one half. -/
theorem round6_eval_up (q : ℚ) (n : ℤ) (h1 : (n : ℚ) ≤ q * 1000000)
    (h2 : q * 1000000 < (n : ℚ) + 1) (hf : 1 / 2 < q * 1000000 - (n : ℚ)) :
    round6 q = ((n : ℚ) + 1) / 1000000 := by
  have hfl : ⌊q * 1000000⌋ = n := Int.floor_eq_iff.mpr ⟨h1, by exact h2⟩
  have hnot : ¬ q * 1000000 - (n : ℚ) < 1 / 2 := not_lt.mpr (le_of_lt hf)
  simp only [round6, hfl, if_neg hnot, if_pos hf]
  push_cast
  ring

/-- C9: the priority tiers partition [0,1] with no gaps and no overlap:
a final score in [0, 0.33] (0 included) is Low, one in (0.33, 0.66] is
Medium, and one in (0.66, 1] is High; each score in [0,1] gets exactly
the one tier given by these cases. -/
theorem priority_tiers_partition (x : ℚ) (h0 : 0 ≤ x) (h1 : x ≤ 1) :
    (x ≤ 0.33 → priorityTier x = some "Low")
    ∧ (0.33 < x → x ≤ 0.66 → priorityTier x = some "Medium")
    ∧ (0.66 < x → priorityTier x = some "High") := by
  refine ⟨fun hl => ?_, fun hm1 hm2 => ?_, fun hh => ?_⟩
  · rw [priorityTier, if_pos ⟨by linarith [show (-0.01 : ℚ) < 0 by norm_num], hl⟩]
  · rw [priorityTier, if_neg (by rintro ⟨-, h⟩; exact absurd hm1 (not_lt.mpr h)),
      if_pos ⟨hm1, hm2⟩]
  · rw [priorityTier, if_neg (by rintro ⟨-, h⟩; linarith),
      if_neg (by rintro ⟨-, h⟩; linarith),
      if_pos ⟨hh, by linarith [show (1 : ℚ) ≤ 1.01 by norm_num]⟩]

theorem priority_tiers_partition_witness :
    priorityTier 0 = some "Low"
    ∧ priorityTier 0.5 = some "Medium"
    ∧ priorityTier 0.9 = some "High" :=
  ⟨(priority_tiers_partition 0 (by norm_num) (by norm_num)).1 (by norm_num),
   (priority_tiers_partition 0.5 (by norm_num) (by norm_num)).2.1
     (by norm_num) (by norm_num),
   (priority_tiers_partition 0.9 (by norm_num) (by norm_num)).2.2 (by norm_num)⟩

/-- `foldl min` is the accumulator when it bounds the list from below. -/
theorem foldl_min_eq_init (t : List ℚ) :
    ∀ a : ℚ, (∀ x ∈ t, a ≤ x) → t.foldl min a = a := by
  induction t with
  | nil => intro a _; rfl
  | cons b t ih =>
      intro a hle
      rw [List.foldl_cons, min_eq_left (hle b (by simp))]
      exact ih a fun x hx => hle x (by simp [hx])

/-- `foldl max` is the accumulator when it bounds the list from above. -/
theorem foldl_max_eq_init (t : List ℚ) :
    ∀ a : ℚ, (∀ x ∈ t, x ≤ a) → t.foldl max a = a := by
  induction t with
  | nil => intro a _; rfl
  | cons b t ih =>
      intro a hle
      rw [List.foldl_cons, max_eq_left (hle b (by simp))]
      exact ih a fun x hx => hle x (by simp [hx])

/-- C10: min-max scaling in `score_final` uses the observed min/max of the
series and never divides by zero: a constant series is sent to all zeros,
and every output value lies in [0,1]. -/
theorem minmax_bounds_and_constant (l : List ℚ) (hne : l ≠ []) :
    ((∀ v ∈ l, v = l.headD 0) → minmax l = l.map (fun _ => 0))
    ∧ (∀ v ∈ minmax l, 0 ≤ v ∧ v ≤ 1) := by
  obtain ⟨h, t, rfl⟩ := List.exists_cons_of_ne_nil hne
  constructor
  · intro hconst
    have hall : ∀ x ∈ t, x = h := fun x hx => hconst x (by simp [hx])
    have hmn : t.foldl min h = h :=
      foldl_min_eq_init t h fun x hx => le_of_eq (hall x hx).symm
    have hmx : t.foldl max h = h :=
      foldl_max_eq_init t h fun x hx => le_of_eq (hall x hx)
    rw [minmax, hmn, hmx]
    simp
  · intro v hv
    rw [minmax] at hv
    set mn := t.foldl min h with hmn
    set mx := t.foldl max h with hmx
    by_cases hc : |mx - mn| ≤ 1e-8
    · rw [if_pos hc] at hv
      rcases List.mem_map.mp hv with ⟨x, -, rfl⟩
      norm_num
    · rw [if_neg hc] at hv
      rcases List.mem_map.mp hv with ⟨x, hx, rfl⟩
      have hmn_le : mn ≤ x := by
        rcases List.mem_cons.mp hx with hx' | hx'
        · subst hx'; exact foldl_min_le_init t x
        · exact foldl_min_le_mem t hx' h
      have hle_mx : x ≤ mx := by
        rcases List.mem_cons.mp hx with hx' | hx'
        · subst hx'; exact le_foldl_max_init t x
        · exact le_foldl_max_mem t hx' h
      have hlt : mn < mx := by
        rcases lt_or_le mn mx with h' | h'
        · exact h'
        · exact absurd (by rw [abs_of_nonpos (by linarith)]; linarith) hc
      have hpos : 0 < mx - mn := by linarith
      exact ⟨div_nonneg (by linarith) (le_of_lt hpos),
        (div_le_one hpos).mpr (by linarith)⟩

theorem minmax_bounds_and_constant_witness :
    minmax [3, 3, 3] = [0, 0, 0] ∧ (0 ≤ (4 : ℚ) / 5 ∧ (4 : ℚ) / 5 ≤ 1) :=
  ⟨by
    have h := (minmax_bounds_and_constant [3, 3, 3] (by simp)).1
      (by intro v hv; simp at hv; simp [hv])
    simpa using h,
   (minmax_bounds_and_constant [0, 1, 0.8] (by simp)).2 (4 / 5)
     (by norm_num [minmax, List.foldl, min_def, max_def, abs_of_nonneg])⟩

/-- C1: every run of the fusion stage computes
`final = 0.50*propensity_norm + 0.30*urgency + 0.20*risk_norm` with
`urgency = 0.6*p_adopt_3m_norm + 0.4*(1 - expected_time_norm)`, each
norm the min-max normalization over the run's population (the stored
value is that quantity rounded to six decimals); on the population with
ranges propensity in [0,1], p_adopt_3m in [0.1,0.9], expected_time in
[1,12] and risk normalizing over [0,1], the customer with propensity
0.8, p_adopt_3m 0.5, expected_time 3 and risk 0.4 scores 0.668182,
which is 0.6682 to four decimal places, and lands in tier High. -/
theorem score_fusion_composite_formula :
    (∀ (props p3s times risks : List ℚ) (i : Nat),
        i < props.length → props.length = p3s.length →
        props.length = times.length → props.length = risks.length →
        (computeFinalScores props p3s times risks).getD i 0 =
          round6 (0.5 * (minmax props).getD i 0
            + 0.3 * (0.6 * (minmax p3s).getD i 0
                + 0.4 * (1 - (minmax times).getD i 0))
            + 0.2 * (minmax risks).getD i 0))
    ∧ computeFinalScores [0, 1, 0.8] [0.1, 0.9, 0.5] [1, 12, 3] [0, 1, 0.4]
        = [0.12, 0.88, 0.668182]
    ∧ |(0.668182 : ℚ) - 0.6682| < 0.0001
    ∧ priorityTier 0.668182 = some "High" := by
  have hA : round6 (3 / 25) = 3 / 25 := by
    have h := round6_eval_down (3 / 25) 120000 (by norm_num) (by norm_num) (by norm_num)
    rw [h]; norm_num
  have hB : round6 (22 / 25) = 22 / 25 := by
    have h := round6_eval_down (22 / 25) 880000 (by norm_num) (by norm_num) (by norm_num)
    rw [h]; norm_num
  have hC : round6 (147 / 220) = 334091 / 500000 := by
    have h := round6_eval_up (147 / 220) 668181 (by norm_num) (by norm_num) (by norm_num)
    rw [h]; norm_num
  refine ⟨?_, ?_, ?_, ?_⟩
  · intro props p3s times risks i hi hl1 hl2 hl3
    simp only [computeFinalScores]
    have lp : (minmax props).length = props.length := minmax_length props
    have l3 : (minmax p3s).length = props.length := by rw [minmax_length, ← hl1]
    have lt0 : (minmax times).length = props.length := by rw [minmax_length, ← hl2]
    have lt : ((minmax times).map (fun v => 1 - v)).length = props.length := by
      rw [List.length_map, lt0]
    have lu : (List.zipWith (fun a b => 0.6 * a + 0.4 * b) (minmax p3s)
        ((minmax times).map (fun v => 1 - v))).length = props.length := by
      rw [List.length_zipWith, l3, lt, min_self]
    have lr : (minmax risks).length = props.length := by rw [minmax_length, ← hl3]
    have lpre : (List.zipWith (fun p u => 0.5 * p + 0.3 * u) (minmax props)
        (List.zipWith (fun a b => 0.6 * a + 0.4 * b) (minmax p3s)
          ((minmax times).map (fun v => 1 - v)))).length = props.length := by
      rw [List.length_zipWith, lp, lu, min_self]
    have lfin : (List.zipWith (fun pu r => pu + 0.2 * r)
        (List.zipWith (fun p u => 0.5 * p + 0.3 * u) (minmax props)
          (List.zipWith (fun a b => 0.6 * a + 0.4 * b) (minmax p3s)
            ((minmax times).map (fun v => 1 - v)))) (minmax risks)).length
        = props.length := by
      rw [List.length_zipWith, lpre, lr, min_self]
    rw [getD_map_of_lt round6 _ i (by rw [lfin]; exact hi) 0 0,
      getD_zipWith_of_lt _ _ _ i (by rw [lpre]; exact hi) (by rw [lr]; exact hi) 0 0 0,
      getD_zipWith_of_lt _ _ _ i (by rw [lp]; exact hi) (by rw [lu]; exact hi) 0 0 0,
      getD_zipWith_of_lt _ _ _ i (by rw [l3]; exact hi) (by rw [lt]; exact hi) 0 0 0,
      getD_map_of_lt _ _ i (by rw [lt0]; exact hi) 0 0]
  · have e1 : minmax [0, 1, 0.8] = [0, 1, 0.8] := by
      norm_num [minmax, List.foldl, min_def, max_def, abs_of_nonneg]
    have e2 : minmax [0.1, 0.9, 0.5] = [0, 1, 0.5] := by
      norm_num [minmax, List.foldl, min_def, max_def, abs_of_nonneg]
    have e3 : minmax [1, 12, 3] = [0, 1, 2 / 11] := by
      norm_num [minmax, List.foldl, min_def, max_def, abs_of_nonneg]
    have e4 : minmax [0, 1, 0.4] = [0, 1, 0.4] := by
      norm_num [minmax, List.foldl, min_def, max_def, abs_of_nonneg]
    simp only [computeFinalScores, e1, e2, e3, e4, List.zipWith, List.map]
    norm_num [hA, hB, hC]
  · rw [show (0.668182 : ℚ) - 0.6682 = -0.000018 by norm_num, abs_neg,
      abs_of_nonneg (by norm_num)]
    norm_num
  · rw [priorityTier, if_neg (by norm_num), if_neg (by norm_num),
      if_pos (by norm_num)]

theorem score_fusion_composite_formula_witness :
    (computeFinalScores [0, 1, 0.8] [0.1, 0.9, 0.5] [1, 12, 3] [0, 1, 0.4]).getD 2 0
      = round6 (0.5 * (minmax [0, 1, 0.8]).getD 2 0
          + 0.3 * (0.6 * (minmax [0.1, 0.9, 0.5]).getD 2 0
              + 0.4 * (1 - (minmax [1, 12, 3]).getD 2 0))
          + 0.2 * (minmax [0, 1, 0.4]).getD 2 0) :=
  score_fusion_composite_formula.1 [0, 1, 0.8] [0.1, 0.9, 0.5] [1, 12, 3]
    [0, 1, 0.4] 2 (by norm_num) rfl rfl rfl

/-- C5 (code bug): with no persisted model artifacts, the fresh-fit path
of `load_or_train_kmeans` selects the `m12_*`-prefixed training columns
from `customer_features.csv`, but `build_features` writes unprefixed
column names, so the selection fails (`KeyError`) instead of fitting a
fresh model as the claim (and the function's own docstring) state. -/
theorem markov_fresh_fit_column_mismatch :
    fresh_fit_columns = none
    ∧ feature_table_columns.contains "m12_mean_balance" = false
    ∧ feature_table_columns.contains "mean_balance" = true := by
  decide

/-- Both components of a successor pair are rows of the list. -/
theorem adjPairs_fst_snd_mem {α : Type} :
    ∀ (l : List α) (p : α × α), p ∈ adjPairs l → p.1 ∈ l ∧ p.2 ∈ l
  | [], p, h => by simp [adjPairs] at h
  | [a], p, h => by simp [adjPairs] at h
  | a :: b :: rest, p, h => by
      rw [adjPairs] at h
      rcases List.mem_cons.mp h with h | h
      · subst h
        exact ⟨by simp, by simp⟩
      · have hm := adjPairs_fst_snd_mem (b :: rest) p h
        exact ⟨List.mem_cons.mpr (Or.inr hm.1), List.mem_cons.mpr (Or.inr hm.2)⟩

theorem validPairs_subset_cons (a : Nat × Nat) (rows : List (Nat × Nat)) :
    ∀ p ∈ validPairs rows, p ∈ validPairs (a :: rows) := by
  intro p hp
  obtain ⟨hadj, hcond⟩ := List.mem_filter.mp hp
  refine List.mem_filter.mpr ⟨?_, hcond⟩
  cases rows with
  | nil => simp [adjPairs] at hadj
  | cons b rest =>
      rw [adjPairs]
      exact List.mem_cons.mpr (Or.inr hadj)

/-- A kept pair consists of two rows with consecutive months. -/
theorem validPairs_sound (rows : List (Nat × Nat))
    (p : (Nat × Nat) × (Nat × Nat)) (hp : p ∈ validPairs rows) :
    p.1 ∈ rows ∧ p.2 ∈ rows ∧ p.2.1 = p.1.1 + 1 := by
  obtain ⟨hadj, hcond⟩ := List.mem_filter.mp hp
  have hm := adjPairs_fst_snd_mem rows p hadj
  exact ⟨hm.1, hm.2, by simpa using hcond⟩

/-- On rows with strictly increasing months, any two rows at months `t`
and `t+1` form a kept pair. -/
theorem validPairs_complete :
    ∀ (rows : List (Nat × Nat)),
      List.Pairwise (fun a b : Nat × Nat => a.1 < b.1) rows →
      ∀ t c t' c' : Nat, (t, c) ∈ rows → (t', c') ∈ rows → t' = t + 1 →
        ((t, c), (t', c')) ∈ validPairs rows := by
  intro rows
  induction rows with
  | nil => intro _ t c t' c' h1; cases h1
  | cons a rest ih =>
      intro hp t c t' c' h1 h2 ht
      have hpa := (List.pairwise_cons.mp hp).1
      have hprest := (List.pairwise_cons.mp hp).2
      rcases List.mem_cons.mp h1 with ha | ha
      · rcases List.mem_cons.mp h2 with hb | hb
        · rw [← ha] at hb
          have : t' = t := congrArg Prod.fst hb
          omega
        · cases rest with
          | nil => cases hb
          | cons b rest' =>
              rcases List.mem_cons.mp hb with hc | hc
              · subst ha
                subst hc
                refine List.mem_filter.mpr ⟨?_, by simp [ht]⟩
                rw [adjPairs]
                exact List.mem_cons.mpr (Or.inl rfl)
              · have hab : a.1 < b.1 := hpa b (List.mem_cons.mpr (Or.inl rfl))
                have hbt : b.1 < (t', c').1 :=
                  (List.pairwise_cons.mp hprest).1 (t', c') hc
                have hat : t = a.1 := congrArg Prod.fst ha
                simp only at hbt
                omega
      · rcases List.mem_cons.mp h2 with hb | hb
        · have hat : a.1 < (t, c).1 := hpa (t, c) ha
          have hta : t' = a.1 := congrArg Prod.fst hb
          simp only at hat
          omega
        · exact validPairs_subset_cons a rest _ (ih hprest t c t' c' ha hb ht)

/-- C3: a pair of a customer's monthly rows at months `t` and `t'`
contributes a transition iff `t'` is exactly `t + 1`: stated both for the
already-sorted row list (strictly increasing months) and for an arbitrary
row list with distinct months, which `compute_markov` first sorts. -/
theorem markov_transition_pairing :
    (∀ (rows : List (Nat × Nat)),
        List.Pairwise (fun a b : Nat × Nat => a.1 < b.1) rows →
        ∀ t c t' c' : Nat,
          (((t, c), (t', c')) ∈ validPairs rows
            ↔ ((t, c) ∈ rows ∧ (t', c') ∈ rows ∧ t' = t + 1)))
    ∧ (∀ (rows : List (Nat × Nat)), (rows.map Prod.fst).Nodup →
        ∀ t c t' c' : Nat,
          (((t, c), (t', c')) ∈ validPairs (sort_by_month rows)
            ↔ ((t, c) ∈ rows ∧ (t', c') ∈ rows ∧ t' = t + 1))) := by
  have main : ∀ (rows : List (Nat × Nat)),
      List.Pairwise (fun a b : Nat × Nat => a.1 < b.1) rows →
      ∀ t c t' c' : Nat,
        (((t, c), (t', c')) ∈ validPairs rows
          ↔ ((t, c) ∈ rows ∧ (t', c') ∈ rows ∧ t' = t + 1)) := by
    intro rows hp t c t' c'
    constructor
    · intro h
      exact validPairs_sound rows _ h
    · rintro ⟨h1, h2, h3⟩
      exact validPairs_complete rows hp t c t' c' h1 h2 h3
  refine ⟨main, ?_⟩
  intro rows hnd t c t' c'
  have hperm : List.Perm (sort_by_month rows) rows :=
    List.perm_insertionSort (fun a b : Nat × Nat => a.1 ≤ b.1) rows
  have hsorted : List.Pairwise (fun a b : Nat × Nat => a.1 ≤ b.1)
      (sort_by_month rows) :=
    List.sorted_insertionSort (fun a b : Nat × Nat => a.1 ≤ b.1) rows
  have hnd' : ((sort_by_month rows).map Prod.fst).Nodup :=
    ((hperm.map Prod.fst).nodup_iff).mpr hnd
  have hne : List.Pairwise (fun a b : Nat × Nat => a.1 ≠ b.1)
      (sort_by_month rows) := List.pairwise_map.mp hnd'
  have hlt : List.Pairwise (fun a b : Nat × Nat => a.1 < b.1)
      (sort_by_month rows) :=
    (hsorted.and hne).imp fun h => lt_of_le_of_ne h.1 h.2
  rw [main _ hlt t c t' c', hperm.mem_iff, hperm.mem_iff]

theorem markov_transition_pairing_witness :
    ((1, 0), (2, 1)) ∈ validPairs (sort_by_month [(4, 0), (1, 0), (2, 1)])
    ∧ ((2, 1), (4, 0)) ∉ validPairs (sort_by_month [(4, 0), (1, 0), (2, 1)]) :=
  ⟨(markov_transition_pairing.2 [(4, 0), (1, 0), (2, 1)] (by decide)
      1 0 2 1).mpr (by decide),
   fun h => absurd
     ((markov_transition_pairing.2 [(4, 0), (1, 0), (2, 1)] (by decide)
        2 1 4 0).mp h).2.2 (by decide)⟩

/-- C2: every row of the probability matrix sums to exactly 1 (hence to
1.0 within 1e-9) or is entirely zero; a row whose count total is zero
comes back all zeros; and the scenario counts 8/2/1/9 normalize to
[0.8, 0.2] and [0.1, 0.9]. -/
theorem markov_rows_stochastic :
    (∀ (rows : List (Nat × Nat × Nat)), ∀ r ∈ markov_probs rows,
        r.sum = 1 ∨ ∀ x ∈ r, x = 0)
    ∧ (∀ (rows : List (Nat × Nat × Nat)) (i : Nat),
        ((markov_counts rows).getD i []).sum = 0 →
        ∀ x ∈ (markov_probs rows).getD i [], x = 0)
    ∧ markov_counts exMarkovRows = [[8, 2], [1, 9]]
    ∧ markov_probs exMarkovRows = [[4 / 5, 1 / 5], [1 / 10, 9 / 10]] := by
  have hnorm : ∀ (c : List Nat), c.sum ≠ 0 → (normalizeRow c).sum = 1 := by
    intro c h
    rw [normalizeRow, if_neg h]
    simp only [div_eq_mul_inv]
    rw [List.sum_map_mul_right c (fun x : Nat => (x : ℚ)) ((c.sum : ℚ))⁻¹,
      ← Nat.cast_list_sum]
    exact mul_inv_cancel₀ (Nat.cast_ne_zero.mpr h)
  have hzero : ∀ (c : List Nat), c.sum = 0 → ∀ x ∈ normalizeRow c, x = 0 := by
    intro c h x hx
    rw [normalizeRow, if_pos h] at hx
    rcases List.mem_map.mp hx with ⟨y, -, rfl⟩
    rfl
  refine ⟨?_, ?_, ?_, ?_⟩
  · intro rows r hr
    rcases List.mem_map.mp hr with ⟨c, -, rfl⟩
    by_cases h : c.sum = 0
    · exact Or.inr (hzero c h)
    · exact Or.inl (hnorm c h)
  · intro rows i h
    by_cases hi : i < (markov_counts rows).length
    · have heq : (markov_probs rows).getD i [] =
          normalizeRow ((markov_counts rows).getD i []) := by
        rw [markov_probs]
        exact getD_map_of_lt normalizeRow _ i hi [] []
      rw [heq]
      exact hzero _ h
    · have hlen : (markov_probs rows).length ≤ i := by
        rw [markov_probs, List.length_map]
        exact le_of_not_lt hi
      rw [List.getD_eq_default _ _ hlen]
      intro x hx
      cases hx
  · decide
  · have hc : markov_counts exMarkovRows = [[8, 2], [1, 9]] := by decide
    rw [markov_probs, hc]
    simp only [List.map, normalizeRow]
    norm_num

theorem markov_rows_stochastic_witness :
    ([4 / 5, 1 / 5] : List ℚ).sum = 1 ∨ (∀ x ∈ ([4 / 5, 1 / 5] : List ℚ), x = 0) :=
  markov_rows_stochastic.1 exMarkovRows [4 / 5, 1 / 5]
    (by rw [markov_rows_stochastic.2.2.2]; exact List.mem_cons.mpr (Or.inl rfl))

/-- C4 counterexample: the state space of `compute_markov` is not fixed
at k = 4; on a run whose monthly assignments only use clusters 0 and 1
the matrices are 2×2. -/
theorem markov_state_space_size_two :
    markov_counts [(1, 1, 0), (1, 2, 1), (1, 3, 0)] = [[0, 1], [1, 0]]
    ∧ (markov_counts [(1, 1, 0), (1, 2, 1), (1, 3, 0)]).length ≠ 4 := by
  decide

/-- C4 (amended): the count and probability matrices are indexed by the
complete contiguous state range `0..m`, where `m` is the largest cluster
id observed in the monthly assignment or as a successor state (not a
fixed k = 4); a state that never occurs as a current state still gets a
row, all zeros after the fill-0 reindex and normalization. -/
theorem markov_state_space_observed_max (rows : List (Nat × Nat × Nat))
    (_hne : rows ≠ []) :
    ((markov_counts rows).length = max_state rows + 1
      ∧ ∀ r ∈ markov_counts rows, r.length = max_state rows + 1)
    ∧ (∀ i : Nat, (∀ tr ∈ transitions_of rows, tr.1 ≠ i) →
        (∀ x ∈ (markov_counts rows).getD i [], x = 0)
        ∧ (∀ x ∈ (markov_probs rows).getD i [], x = 0)) := by
  constructor
  · constructor
    · simp [markov_counts]
    · intro r hr
      rw [markov_counts] at hr
      rcases List.mem_map.mp hr with ⟨j, -, rfl⟩
      simp
  · intro i hno
    have hcount : ∀ j : Nat, (transitions_of rows).count (i, j) = 0 := by
      intro j
      refine List.count_eq_zero.mpr fun hmem => ?_
      exact hno (i, j) hmem rfl
    by_cases hi : i < (markov_counts rows).length
    · have hilen : i < max_state rows + 1 := by
        rw [markov_counts] at hi
        simpa using hi
      have hrow : (markov_counts rows).getD i [] =
          (List.range (max_state rows + 1)).map
            (fun j => (transitions_of rows).count (i, j)) := by
        rw [markov_counts,
          getD_map_of_lt _ _ i (by simpa using hilen) [] 0,
          List.getD_eq_getElem _ _ (by simpa using hilen),
          List.getElem_range]
      have hallzero : ∀ x ∈ (markov_counts rows).getD i [], x = 0 := by
        rw [hrow]
        intro x hx
        rcases List.mem_map.mp hx with ⟨j, -, rfl⟩
        exact hcount j
      refine ⟨hallzero, ?_⟩
      have hsum : ((markov_counts rows).getD i []).sum = 0 :=
        List.sum_eq_zero hallzero
      have hprob : (markov_probs rows).getD i [] =
          normalizeRow ((markov_counts rows).getD i []) := by
        rw [markov_probs]
        exact getD_map_of_lt normalizeRow _ i hi [] []
      rw [hprob, normalizeRow, if_pos hsum]
      intro x hx
      rcases List.mem_map.mp hx with ⟨y, -, rfl⟩
      rfl
    · have hlen1 : (markov_counts rows).length ≤ i := le_of_not_lt hi
      have hlen2 : (markov_probs rows).length ≤ i := by
        rw [markov_probs, List.length_map]
        exact hlen1
      rw [List.getD_eq_default _ _ hlen1, List.getD_eq_default _ _ hlen2]
      exact ⟨fun x hx => (List.not_mem_nil x hx).elim,
        fun x hx => (List.not_mem_nil x hx).elim⟩

theorem markov_state_space_observed_max_witness :
    ((markov_counts [(1, 1, 0), (1, 2, 2), (1, 3, 0)]).length = 3
      ∧ ∀ r ∈ markov_counts [(1, 1, 0), (1, 2, 2), (1, 3, 0)], r.length = 3)
    ∧ ((∀ x ∈ (markov_counts [(1, 1, 0), (1, 2, 2), (1, 3, 0)]).getD 1 [], x = 0)
      ∧ ∀ x ∈ (markov_probs [(1, 1, 0), (1, 2, 2), (1, 3, 0)]).getD 1 [], x = 0) :=
  ⟨(markov_state_space_observed_max [(1, 1, 0), (1, 2, 2), (1, 3, 0)]
      (by decide)).1,
   (markov_state_space_observed_max [(1, 1, 0), (1, 2, 2), (1, 3, 0)]
      (by decide)).2 1 (by decide)⟩

/-- C8: the label cascade is evaluated in fixed priority order with first
match winning: a cluster that is top (dense rank 1, descending) on both
late-payment rate and transaction count gets the high-risk
digital-intensive label no matter how the other axes rank; otherwise top
income wins, then top transaction count, then the default. -/
theorem cluster_label_cascade (summary : List ClusterSummaryRow)
    (row : ClusterSummaryRow) :
    (dense_rank_desc (summary.map (fun r => r.late_payment_rate))
          row.late_payment_rate = 1 →
      dense_rank_desc (summary.map (fun r => r.mean_pix)) row.mean_pix = 1 →
      profile_name summary row = "Digital Crédito Intensivo")
    ∧ (¬(dense_rank_desc (summary.map (fun r => r.late_payment_rate))
            row.late_payment_rate = 1
          ∧ dense_rank_desc (summary.map (fun r => r.mean_pix)) row.mean_pix = 1) →
      dense_rank_desc (summary.map (fun r => r.income)) row.income = 1 →
      profile_name summary row = "Alta Renda Estável")
    ∧ (¬(dense_rank_desc (summary.map (fun r => r.late_payment_rate))
            row.late_payment_rate = 1
          ∧ dense_rank_desc (summary.map (fun r => r.mean_pix)) row.mean_pix = 1) →
      ¬ dense_rank_desc (summary.map (fun r => r.income)) row.income = 1 →
      dense_rank_desc (summary.map (fun r => r.mean_pix)) row.mean_pix = 1 →
      profile_name summary row = "Digital Estável")
    ∧ (¬(dense_rank_desc (summary.map (fun r => r.late_payment_rate))
            row.late_payment_rate = 1
          ∧ dense_rank_desc (summary.map (fun r => r.mean_pix)) row.mean_pix = 1) →
      ¬ dense_rank_desc (summary.map (fun r => r.income)) row.income = 1 →
      ¬ dense_rank_desc (summary.map (fun r => r.mean_pix)) row.mean_pix = 1 →
      profile_name summary row = "Conservador Tradicional") := by
  refine ⟨fun h1 h2 => ?_, fun hn hinc => ?_, fun hn hninc hdig => ?_,
    fun hn hninc hndig => ?_⟩
  · rw [profile_name, if_pos ⟨h1, h2⟩]
  · rw [profile_name, if_neg hn, if_pos hinc]
  · rw [profile_name, if_neg hn, if_neg hninc, if_pos hdig]
  · rw [profile_name, if_neg hn, if_neg hninc, if_neg hndig]

theorem cluster_label_cascade_witness :
    profile_name [exCardA, exCardB] exCardA = "Digital Crédito Intensivo"
    ∧ dense_rank_desc ([exCardA, exCardB].map (fun r => r.income))
        exCardB.income = 1 :=
  ⟨(cluster_label_cascade [exCardA, exCardB] exCardA).1 (by decide) (by decide),
   by decide⟩

/-- `getD` through two stacked `map`s, at a valid index. -/
theorem getD_map_map {α β γ : Type} (f : α → β) (g : β → γ) (l : List α)
    (i : Nat) (h : i < l.length) (d : γ) (d₀ : α) :
    ((l.map f).map g).getD i d = g (f (l.getD i d₀)) := by
  rw [getD_map_of_lt g (l.map f) i (by simpa using h) d (f d₀),
    getD_map_of_lt f l i h (f d₀) d₀]

/-- C6 (amended): `score_final.main` fails fast (with a descriptive
error) when the clustered feature table (both file variants), the
propensity scores, either survival output, or the transition matrix is
absent, and succeeds whenever those five inputs are present — the
cluster-profile-cards file is not required. -/
theorem score_fusion_missing_input_behavior (fi : FusionInputs) :
    (((fi.base_named = none ∧ fi.base_unnamed = none)
        ∨ fi.propensity_scores = none ∨ fi.survival_prob = none
        ∨ fi.survival_time = none ∨ fi.markov_matrix = none) →
      isOkB (score_final_main fi) = false)
    ∧ ((fi.base_named ≠ none ∨ fi.base_unnamed ≠ none) →
        fi.propensity_scores ≠ none → fi.survival_prob ≠ none →
        fi.survival_time ≠ none → fi.markov_matrix ≠ none →
        isOkB (score_final_main fi) = true) := by
  obtain ⟨bn, bu, pr, sp, st, mk, cd⟩ := fi
  constructor
  · intro h
    cases bn <;> cases bu <;> cases pr <;> cases sp <;> cases st <;> cases mk <;>
      simp_all [score_final_main, isOkB]
  · intro h1 h2 h3 h4 h5
    cases bn <;> cases bu <;> cases pr <;> cases sp <;> cases st <;> cases mk <;>
      simp_all [score_final_main, isOkB]

theorem score_fusion_missing_input_behavior_witness :
    isOkB (score_final_main fiMissingMarkov) = false :=
  (score_fusion_missing_input_behavior fiMissingMarkov).1
    (Or.inr (Or.inr (Or.inr (Or.inr rfl))))

/-- C6 counterexample: with every other input present but the
cluster-profile-cards file absent, `score_final.main` still succeeds (the
transition-risk signal silently degrades), so the claim that the stage
fails when the profile cards are absent is false. -/
theorem score_fusion_runs_without_profile_cards :
    fiNoCards.cards = none ∧ isOkB (score_final_main fiNoCards) = true :=
  ⟨rfl, rfl⟩

/-- C7 (amended): the lookup tries the numeric path first for every
customer; the name-based pass runs only when the numeric path resolved no
customer at all and the matrix has a "Low" column and the base table has
cluster names; a customer still unresolved gets the neutral value 0 (and
no branch can fail the run). -/
theorem transition_risk_resolution_order (base : BaseTable) (M : MarkovCSV)
    (rid : Option Nat) (i : Nat) (hi : i < base.rows.length) :
    (((base.rows.map (fun r => transition_to_risk M rid r.2)).all
          (fun o => o.isNone) && M.hasCol "Low") = false →
      (p_next_risk_col base M rid).getD i 0
        = (transition_to_risk M rid ((base.rows.getD i (0, 0)).2)).getD 0)
    ∧ (∀ ns, base.names = some ns → ns.length = base.rows.length →
        ((base.rows.map (fun r => transition_to_risk M rid r.2)).all
            (fun o => o.isNone) && M.hasCol "Low") = true →
        (p_next_risk_col base M rid).getD i 0
          = (if M.hasRow (ns.getD i "") && M.hasCol "Low"
              then some (M.loc (ns.getD i "") "Low") else none).getD 0)
    ∧ (base.names = none →
        ((base.rows.map (fun r => transition_to_risk M rid r.2)).all
            (fun o => o.isNone) && M.hasCol "Low") = true →
        (p_next_risk_col base M rid).getD i 0 = 0) := by
  refine ⟨fun hc => ?_, fun ns hns hlen hc => ?_, fun hns hc => ?_⟩
  · simp only [p_next_risk_col, hc]
    rw [if_neg Bool.false_ne_true]
    exact getD_map_map _ _ base.rows i hi 0 (0, 0)
  · simp only [p_next_risk_col, hns, hc]
    rw [if_pos trivial]
    exact getD_map_map _ _ ns i (by rw [hlen]; exact hi) 0 ""
  · simp only [p_next_risk_col, hns, hc]
    rw [if_pos trivial]
    rw [getD_map_map _ _ base.rows i hi 0 (0, 0)]
    have hall := (Bool.and_eq_true _ _ |>.mp hc).1
    have hmem : base.rows.getD i (0, 0) ∈ base.rows := by
      rw [List.getD_eq_getElem _ _ hi]
      exact List.getElem_mem _
    have hmem2 : transition_to_risk M rid ((base.rows.getD i (0, 0)).2)
        ∈ base.rows.map (fun r => transition_to_risk M rid r.2) :=
      List.mem_map_of_mem _ hmem
    have hnone := List.all_eq_true.mp hall _ hmem2
    rw [Option.isNone_iff_eq_none] at hnone
    rw [hnone]
    rfl

theorem transition_risk_resolution_order_witness :
    (p_next_risk_col base7a M7a (some 0)).getD 0 0
      = (transition_to_risk M7a (some 0) ((base7a.rows.getD 0 (0, 0)).2)).getD 0 :=
  (transition_risk_resolution_order base7a M7a (some 0) 0 (by decide)).1 (by decide)

/-- C7 counterexample: because one customer resolved numerically, the
name-based pass never runs, so customer 2 gets 0 even though the
per-customer chain of the claim would resolve its name to 9; the claim
that each customer's lookup falls back to the name path is false. -/
theorem transition_risk_name_path_gated :
    find_risk_cluster_id (some [(1, 5)]) = some 1
    ∧ p_next_risk_col base7 M7 (some 1) = [7, 0]
    ∧ spec_transition_risk M7 (some 1) 5 (some "NameX") = 9
    ∧ (9 : ℚ) ≠ 0 := by
  decide

end BankProfiling
